import Mathlib

/-!
Shallow embedding of the core of the `unblocked` puzzle game
(src/replay.rs, src/field.rs, src/scores.rs, src/loader.rs, src/consts.rs),
with theorems checking the natural-language specification against it.

Modelling conventions:
* Rust `u64`/`u32`/`usize` values are modelled as `Nat`.  The only
  subtractions performed by the embedded code (`tick - shift`,
  `delay - MAX_DELAY`, `ticks - 1`, `by - 1`, `lvl_cnt - 1`) are modelled
  by truncated `Nat` subtraction; every theorem below either carries a
  hypothesis under which the Rust subtraction cannot underflow (so wrapped
  u64 arithmetic, truncated arithmetic and integer arithmetic agree) or
  does not depend on the subtraction.
* Rust `f32` screen coordinates are modelled as `ℚ`.  All constants in the
  embedded code (48.0, 16.0, multiples thereof) are exactly representable
  in f32, and the float literal `0.1` is modelled as `1/10`; the
  comparisons performed never happen within the representation error of
  these constants.
* File/terminal I/O is outside the model: `load` receives the already
  deserialized record as an argument, `save` keeps the normalized log that
  the Rust code serializes, `set_win` receives the current date as an
  argument.
* A Rust `panic!`/`unreachable!`/out-of-bounds index is modelled by
  `Option`-valued results (`none` = abort) or by a `Bool` validator
  returning `false`; `assert!` preconditions of the replay engine are
  modelled as side conditions of the reachability relation.
-/

namespace Unblocked

/-! ### consts.rs -/

def BRICK_SIZE : ℚ := 48
def WIDTH : Nat := 21
def INFO_WIDTH : Nat := 5
def HEIGHT : Nat := 16
def MAX_SIZE : Nat := 7
def DEMO_LEVEL : Nat := 0

/-! ### replay.rs -/

def REPLAY_VERSION : Nat := 1
-- the first replay action must be no later than MAX_DELAY ticks
def MAX_DELAY : Nat := 60 * 3

inductive Action where
  | Up
  | Down
  | Throw
deriving DecidableEq, Repr

inductive RState where
  | Idle
  | Recording
  | Replaying
deriving DecidableEq, Repr

structure Move where
  tick : Nat
  act : Action
deriving DecidableEq, Repr

structure Replay where
  version : Nat
  moves : List Move
deriving DecidableEq, Repr

def Replay.default : Replay := { version := REPLAY_VERSION, moves := [] }

structure ReplayEngine where
  replay : Replay
  state : RState
  idx : Nat
  shift : Nat
deriving DecidableEq, Repr

def ReplayEngine.new : ReplayEngine :=
  { replay := Replay.default, state := RState.Idle, shift := 0, idx := 0 }

def ReplayEngine.rec_start (e : ReplayEngine) : ReplayEngine :=
  { e with state := RState.Recording,
           replay := { e.replay with moves := [], version := REPLAY_VERSION } }

/-- `ReplayEngine::load`, with the deserialized bytes (a `Replay` record)
passed in place of the file read.  A missing file or a read error leaves the
engine unchanged, exactly as an unsupported version does. -/
def ReplayEngine.load (e : ReplayEngine) (r : Replay) : ReplayEngine :=
  if r.version = REPLAY_VERSION then
    match r.moves with
    | [] => { e with replay := r, idx := 0 }
    | m :: _ =>
      { e with replay := r, idx := 0,
               shift := if m.tick > MAX_DELAY then m.tick - MAX_DELAY else 0 }
  else
    e

/-- The in-place gap-normalization loop of `ReplayEngine::save`
(`shift`/`last_delay` accumulator over `moves.iter_mut()`). -/
def normMoves : Nat → Nat → List Move → List Move
  | _, _, [] => []
  | shift, last_delay, m :: rest =>
    let delay := m.tick - shift - last_delay
    let shift' := if delay > MAX_DELAY then shift + (delay - MAX_DELAY) else shift
    let tick' := if shift' ≠ 0 then m.tick - shift' else m.tick
    { m with tick := tick' } :: normMoves shift' tick' rest

/-- `ReplayEngine::save`: an empty log is not touched; otherwise the log is
gap-normalized in place (and then serialized, which is outside the model). -/
def ReplayEngine.save (e : ReplayEngine) : ReplayEngine :=
  if e.replay.moves.isEmpty then e
  else { e with replay := { e.replay with moves := normMoves 0 0 e.replay.moves } }

def ReplayEngine.is_loaded (e : ReplayEngine) : Bool :=
  !e.replay.moves.isEmpty

/-- `ReplayEngine::replay_start`.  The Rust function `assert!`s that the
state is `Idle`; that precondition is tracked by `Reachable` below. -/
def ReplayEngine.replay_start (e : ReplayEngine) : ReplayEngine :=
  if e.replay.moves.isEmpty then e
  else { e with state := RState.Replaying, idx := 0 }

def ReplayEngine.is_playing (e : ReplayEngine) : Bool :=
  e.state == RState.Replaying && decide (e.idx < e.replay.moves.length)

/-- `ReplayEngine::replay_percent` (i32 arithmetic modelled on `ℤ`). -/
def ReplayEngine.replay_percent (e : ReplayEngine) : Int :=
  let l : Int := e.replay.moves.length
  if l = 0 ∨ e.state ≠ RState.Replaying then 0
  else (e.idx : Int) * 100 / l

/-- `ReplayEngine::next_replay_action`: returns the produced action (if any)
together with the updated engine. -/
def ReplayEngine.next_replay_action (e : ReplayEngine) (tick : Nat) :
    Option Action × ReplayEngine :=
  if h : e.is_playing = true ∧ e.idx < e.replay.moves.length then
    let m := e.replay.moves.get ⟨e.idx, h.2⟩
    let next_ticks := m.tick - e.shift
    if tick < next_ticks then (none, e)
    else (some m.act, { e with idx := e.idx + 1 })
  else
    (none, e)

/-- `ReplayEngine::add_action`.  The Rust function `assert!`s that the state
is `Recording`; that precondition is tracked by `Reachable` below. -/
def ReplayEngine.add_action (e : ReplayEngine) (tick : Nat) (a : Action) : ReplayEngine :=
  { e with replay := { e.replay with moves := e.replay.moves ++ [{ tick := tick, act := a }] } }

/-- Engine states reachable through the public replay-engine operations,
starting from `new`.  The `assert!`ed preconditions of `add_action`
(`Recording`) and `replay_start` (`Idle`) are side conditions, since a
violating call aborts the program. -/
inductive Reachable : ReplayEngine → Prop where
  | new : Reachable ReplayEngine.new
  | rec_start {e} : Reachable e → Reachable e.rec_start
  | add_action {e} (t : Nat) (a : Action) :
      Reachable e → e.state = RState.Recording → Reachable (e.add_action t a)
  | load {e} (r : Replay) : Reachable e → Reachable (e.load r)
  | save {e} : Reachable e → Reachable e.save
  | replay_start {e} : Reachable e → e.state = RState.Idle → Reachable e.replay_start
  | next {e} (t : Nat) : Reachable e → Reachable (e.next_replay_action t).2

/-! ### field.rs -/

def TICKS : Nat := 1
def BRICK_DEF_SPEED : ℚ := 48
def BRICK_FALL_SPEED : ℚ := 16

inductive GameState where
  | Unfinished -- keep playing
  | Winner     -- level cleared
  | Looser     -- no moves available
  | Completed  -- last level cleared
deriving DecidableEq, Repr

inductive BrickKind where
  | None
  | K1
  | K2
  | K3
  | K4
  | K5
  | K6
  | Joker
deriving DecidableEq, Repr

structure Vec2 where
  x : ℚ
  y : ℚ
deriving DecidableEq, Repr

/-- `f32::abs` (written with `if` so that it evaluates on literals;
`qabs_eq_abs` below identifies it with `|·|`). -/
def qabs (q : ℚ) : ℚ := if q < 0 then -q else q

/-- Rust `f32 as usize` for the truncating casts in `Brick::stop`
(truncation toward zero, saturating at 0 for negative input). -/
def usizeTrunc (q : ℚ) : Nat :=
  if 0 ≤ q then (⌊q⌋).toNat else 0

/-- Rust `f32::round() as usize` for `Brick::update` (round half away from
zero, then the saturating cast to usize). -/
def usizeRound (q : ℚ) : Nat :=
  if 0 ≤ q then (⌊q + 1/2⌋).toNat else 0

structure Brick where
  -- position in whole blocks
  x : Nat
  y : Nat
  scr_pos : Vec2   -- exact position in points
  kind : BrickKind -- kind of block
  vel : Vec2       -- velocity
  ticks : Nat      -- ticks for moving (shift a block by velocity every N ticks)
  limit : Vec2     -- stop moving the block when it reaches the limit
deriving DecidableEq, Repr

def Brick.new (x y : Nat) (kind : BrickKind) : Brick :=
  { x := x, y := y, kind := kind,
    scr_pos := ⟨BRICK_SIZE * x, BRICK_SIZE * y⟩,
    vel := ⟨0, 0⟩, ticks := 0, limit := ⟨0, 0⟩ }

def Brick.start_moving (b : Brick) (vel limit : Vec2) : Brick :=
  { b with vel := vel, limit := limit, ticks := TICKS }

def Brick.is_moving (b : Brick) : Bool :=
  qabs b.vel.x > 1/10 || qabs b.vel.y > 1/10

def Brick.is_moving_down (b : Brick) : Bool :=
  qabs b.vel.y > 1/10

def Brick.fall (b : Brick) (speed : ℚ) : Brick :=
  if !b.is_moving then
    { b with vel := ⟨0, speed⟩,
             limit := ⟨b.scr_pos.x, b.scr_pos.y + BRICK_SIZE⟩,
             ticks := TICKS }
  else
    { b with limit := ⟨b.limit.x, b.limit.y + BRICK_SIZE⟩ }

-- stop moving
def Brick.stop (b : Brick) : Brick :=
  { b with vel := ⟨0, 0⟩,
           x := usizeTrunc (b.scr_pos.x / BRICK_SIZE),
           y := usizeTrunc (b.scr_pos.y / BRICK_SIZE) }

/-- The one-sided clamp of `Brick::update`: a coordinate that overshoots its
limit in the direction of travel is pulled back to the limit. -/
def clampTo (pos lim v : ℚ) : ℚ :=
  if (pos > lim ∧ v > 0) ∨ (pos < lim ∧ v < 0) then lim else pos

def Brick.update (b : Brick) : Brick :=
  if !b.is_moving then b
  else if b.ticks - 1 ≠ 0 then { b with ticks := b.ticks - 1 }
  else
    -- time to move the block
    let sx := clampTo (b.scr_pos.x + b.vel.x) b.limit.x b.vel.x
    let sy := clampTo (b.scr_pos.y + b.vel.y) b.limit.y b.vel.y
    -- convert current exact screen position into whole blocks when the
    -- block reaches the limit
    if qabs (sx - b.limit.x) < 1/10 ∧ qabs (sy - b.limit.y) < 1/10 then
      { b with ticks := TICKS, scr_pos := ⟨sx, sy⟩,
               x := usizeRound (sx / BRICK_SIZE),
               y := usizeRound (sy / BRICK_SIZE),
               vel := ⟨0, 0⟩ }
    else
      { b with ticks := TICKS, scr_pos := ⟨sx, sy⟩ }

-- convert coordinate in whole blocks into screen coordinates
def b2s (x y : Nat) : Vec2 :=
  ⟨(x : ℚ) * BRICK_SIZE, (y : ℚ) * BRICK_SIZE⟩

-- position of cell (x, y) inside the one-dimensional puzzle mask
def pos2puz (x y : Nat) : Nat :=
  x + y * WIDTH

/-- The annihilation step shared by the vertical branch (field.rs:338-343),
the horizontal match branch (393-398) and the horizontal bounce branch
(417-422) of `GameField::update_player`: remove every brick in cell
`(tx, ty)` and invoke `fall` once on every remaining brick in column `tx`
with row index strictly below the player's row `py`. -/
def annihilateAt (bricks : List Brick) (tx ty py : Nat) : List Brick :=
  (bricks.filter fun b => !(b.x == tx && b.y == ty)).map
    fun b => if b.x = tx ∧ b.y < py then b.fall BRICK_FALL_SPEED else b

/-- The parts of `GameField` that the verified operations read or write.
Textures, animations and the score store are presentation/IO state and are
outside the model; `level_count` stands for `loader.level_count()`. -/
structure GameField where
  puzzle : Nat → Nat         -- collision mask, indexed by pos2puz
  bricks : List Brick
  level : Nat
  state : GameState
  player : Brick
  player_row : Nat
  going_back : Bool
  score : Nat
  arrow_pos : Vec2
  arrow_down : Bool
  first_brick : BrickKind
  level_count : Nat

/-- `GameField::target` (field.rs:738-784).  `none` models the
`panic!("Nothing found")` (the scan index `n` stays 0). -/
def GameField.target (f : GameField) (row : Nat) :
    Option (Bool × Nat × Nat × BrickKind) :=
  let down := if row < HEIGHT - 1 - MAX_SIZE then true
              else !(f.bricks.any fun b => b.y == row)
  if down then
    let obx : Option Nat :=
      if row ≥ HEIGHT - 1 - MAX_SIZE then some 1
      else
        match (List.range (MAX_SIZE + 4)).find? fun i => f.puzzle (row * WIDTH + i) == 0 with
        | none => none
        | some 0 => none     -- n == 0 → panic!("Nothing found")
        | some n => some n
    match obx with
    | none => none
    | some bx =>
      let st := f.bricks.foldl
        (fun (st : Nat × BrickKind) b =>
          if b.x = bx ∧ b.y ≥ row ∧ b.y < st.1 then (b.y, b.kind) else st)
        (HEIGHT - 1, BrickKind.None)
      some (true, bx, st.1 - 1, st.2)
  else
    let bx := (f.bricks.foldl (fun mx b => if b.y = row ∧ b.x > mx then b.x else mx) 0) + 1
    let first := f.bricks.foldl
      (fun k b => if b.y = row ∧ b.x = bx - 1 then b.kind else k) BrickKind.None
    some (false, bx, row, first)

/-- `GameField::recalc_arrow`; `none` propagates the panic of `target`. -/
def GameField.recalc_arrow (f : GameField) : Option GameField :=
  match f.target f.player.y with
  | none => none
  | some (is_down, x, y, brick) =>
    some { f with arrow_pos := if is_down then b2s x y else b2s (x + 1) y,
                  first_brick := brick,
                  arrow_down := is_down }

def GameField.can_throw (f : GameField) : Bool :=
  !f.player.is_moving
    && f.state == GameState.Unfinished
    && f.first_brick != BrickKind.None
    && (f.player.kind == BrickKind.Joker || f.player.kind == f.first_brick)

/-- The row scan of `GameField::calc_state` (`for y in 1..HEIGHT - 1`);
`none` propagates the panic of `target`. -/
def scanRows (f : GameField) : List Nat → Option GameState
  | [] => some GameState.Looser
  | y :: rest =>
    match f.target y with
    | none => none
    | some (_, _, _, kind) =>
      if kind = f.player.kind then some GameState.Unfinished else scanRows f rest

/-- `GameField::calc_state` (field.rs:797-816). -/
def GameField.calc_state (f : GameField) : Option GameState :=
  if f.bricks.isEmpty then
    if f.level + 1 ≥ f.level_count then some GameState.Completed
    else some GameState.Winner
  else if f.player.kind = BrickKind.Joker then some GameState.Unfinished
  else scanRows f (List.range' 1 (HEIGHT - 2))

/-- A minimal concrete field used to instantiate theorems on concrete
inputs: empty brick set, wall column at x = 0, player at the start position
holding Joker, a single loaded level. -/
def sampleField : GameField :=
  { puzzle := fun p => if p % WIDTH = 0 then 1 else 0,
    bricks := [],
    level := 0,
    state := GameState.Unfinished,
    player := Brick.new (WIDTH - INFO_WIDTH - 1) (HEIGHT - 2) BrickKind.Joker,
    player_row := HEIGHT - 2,
    going_back := false,
    score := 0,
    arrow_pos := ⟨0, 0⟩,
    arrow_down := false,
    first_brick := BrickKind.None,
    level_count := 1 }

/-! ### scores.rs -/

-- a level score info
structure Score where
  attempts : Nat   -- attempts to solve the puzzle
  wins : Nat       -- puzzle solved N times
  hiscore : Nat    -- best score
  first_win : Int  -- date of the first win (days from CE)
  help_used : Bool -- help was used before any win
deriving DecidableEq, Repr

def Score.default : Score :=
  { attempts := 0, wins := 0, hiscore := 0, first_win := 0, help_used := false }

structure Scores where
  levels : List Score
  max_level : Nat
  curr_level : Nat
  lvl_cnt : Nat
deriving DecidableEq, Repr

/-- `Scores::level_info`: the stored entry when present, a default otherwise. -/
def Scores.level_info (s : Scores) (lvl_no : Nat) : Score :=
  s.levels.getD lvl_no Score.default

/-- `Scores::set_win`, with the current date (`Local::now` → days from CE)
passed as `today` and the final `save()` (file write) outside the model.
`none` models the `unreachable!()` abort. -/
def Scores.set_win (s : Scores) (lvl_no throws : Nat) (today : Int) : Option Scores :=
  if s.lvl_cnt ≤ lvl_no ∨ s.levels.length + 1 < lvl_no then none
  else
    -- fill the hiscore list with default entries up to lvl_no
    let levels := s.levels ++ List.replicate (lvl_no + 1 - s.levels.length) Score.default
    let curr := levels.getD lvl_no Score.default
    let curr := { curr with wins := curr.wins + 1, attempts := curr.attempts + 1 }
    let curr := if curr.wins = 1 then { curr with first_win := today } else curr
    let curr :=
      if curr.hiscore = 0 ∨ curr.hiscore > throws then
        { curr with hiscore := if throws > 999 then 999 else throws }
      else curr
    let s' := { s with levels := levels.set lvl_no curr }
    some <|
      if lvl_no < s'.lvl_cnt - 1 then
        { s' with max_level := if lvl_no + 1 > s'.max_level then lvl_no + 1 else s'.max_level,
                  curr_level := lvl_no + 1 }
      else s'

/-! ### loader.rs -/

-- a single level
structure Level where
  corner : List Nat                -- pattern of the top left corner (line lengths)
  puzzle : List (List BrickKind)   -- initial block positions
  first : BrickKind                -- player's starting block
deriving DecidableEq

/-- The `max_w` fold of `Loader::validate_level`. -/
def maxW (puzzle : List (List BrickKind)) : Nat :=
  puzzle.foldl (fun mx x => if mx < x.length then x.length else mx) 0

/-- The per-column scan of `Loader::validate_level` (`for l in puzzle`):
`false` models a panic, either the explicit "contains a hole" panic or the
out-of-bounds index panic of `l[i]` when `l.len() == i` (the code only
skips rows with `l.len() < i`). -/
def colScan : List (List BrickKind) → Nat → Bool → Bool
  | [], _, _ => true
  | l :: rest, i, found =>
    if l.length < i then colScan rest i found
    else if h : i < l.length then
      let c := l.get ⟨i, h⟩
      if c = BrickKind.None ∧ found then false   -- "contains a hole" panic
      else colScan rest i (found || (c != BrickKind.None))
    else false                                   -- l[i] index out of bounds panic

/-- `Loader::validate_level`; `false` models any `panic!` of the Rust code,
`true` means the level passes all structural checks. -/
def validate_level (lvl : Level) : Bool :=
  if lvl.corner.length > MAX_SIZE - 1 ∨ lvl.corner.length = 1 then false
  else if lvl.corner.any fun l => l > MAX_SIZE then false
  else if lvl.puzzle.length > MAX_SIZE ∨ lvl.puzzle.length < 2 then false
  else if ¬(2 ≤ maxW lvl.puzzle ∧ maxW lvl.puzzle ≤ MAX_SIZE) then false
  else (List.range (maxW lvl.puzzle)).all fun i => colScan lvl.puzzle i false

/-- The accept path of `Loader::load_from_string`: each finished level is
validated (a failure panics, aborting the load) and then pushed unchanged. -/
def pushLevel (levels : List Level) (lvl : Level) : Option (List Level) :=
  if validate_level lvl then some (levels ++ [lvl]) else none

/-- A column of the puzzle contains an empty cell below a filled cell.  A
cell is empty both when its row stores an explicit `BrickKind.None` and when
its row is too short to reach the column (`getD` defaults to `None`). -/
def HasHole (puzzle : List (List BrickKind)) : Prop :=
  ∃ j1 j2 i, j1 < j2 ∧ j2 < puzzle.length ∧
    (puzzle.getD j1 []).getD i BrickKind.None ≠ BrickKind.None ∧
    (puzzle.getD j2 []).getD i BrickKind.None = BrickKind.None

/-! ## General lemmas -/

theorem qabs_eq_abs (q : ℚ) : qabs q = |q| := by
  unfold qabs
  split
  · exact (abs_of_neg (by assumption)).symm
  · exact (abs_of_nonneg (not_lt.mp (by assumption))).symm

theorem normMoves_map_act (shift last : Nat) (ms : List Move) :
    (normMoves shift last ms).map Move.act = ms.map Move.act := by
  induction ms generalizing shift last with
  | nil => rfl
  | cons m rest ih => simp [normMoves, ih]

theorem normMoves_length (shift last : Nat) (ms : List Move) :
    (normMoves shift last ms).length = ms.length := by
  have h := normMoves_map_act shift last ms
  have h1 := congrArg List.length h
  simpa using h1

/-- Core fact on the gap-normalization loop of `save`: if the incoming ticks
are non-decreasing and the accumulator satisfies `shift + last ≤ first tick`,
then every produced gap (against `last` and between consecutive outputs) is
non-negative and at most `MAX_DELAY`. -/
theorem normMoves_norm (ms : List Move) :
    ∀ shift last, List.Chain' (· ≤ ·) (ms.map Move.tick) →
      (∀ m0 ∈ ms.head?, shift + last ≤ m0.tick) →
      ((∀ m0 ∈ (normMoves shift last ms).head?,
          last ≤ m0.tick ∧ m0.tick - last ≤ MAX_DELAY) ∧
       List.Chain' (fun a b => a ≤ b ∧ b - a ≤ MAX_DELAY)
         ((normMoves shift last ms).map Move.tick)) := by
  induction ms with
  | nil =>
    intro shift last _ _
    exact ⟨by simp [normMoves], by simp [normMoves]⟩
  | cons m rest ih =>
    intro shift last hchain hle
    have hm : shift + last ≤ m.tick := hle m rfl
    have hchain1 : List.Chain' (· ≤ ·) (m.tick :: rest.map Move.tick) := by
      simpa using hchain
    have hchain2 : List.Chain' (· ≤ ·) (rest.map Move.tick) :=
      (List.chain'_cons'.mp hchain1).2
    have hhead : ∀ m0 ∈ rest.head?, m.tick ≤ m0.tick := by
      intro m0 hm0
      have h1 := (List.chain'_cons'.mp hchain1).1 m0.tick
      apply h1
      rw [List.head?_map, hm0]
      rfl
    -- characterize one step of the loop
    rw [show normMoves shift last (m :: rest) =
          ({ m with tick := if (if m.tick - shift - last > MAX_DELAY then
                shift + (m.tick - shift - last - MAX_DELAY) else shift) ≠ 0 then
              m.tick - (if m.tick - shift - last > MAX_DELAY then
                shift + (m.tick - shift - last - MAX_DELAY) else shift) else m.tick } ::
            normMoves
              (if m.tick - shift - last > MAX_DELAY then
                shift + (m.tick - shift - last - MAX_DELAY) else shift)
              (if (if m.tick - shift - last > MAX_DELAY then
                shift + (m.tick - shift - last - MAX_DELAY) else shift) ≠ 0 then
                m.tick - (if m.tick - shift - last > MAX_DELAY then
                  shift + (m.tick - shift - last - MAX_DELAY) else shift) else m.tick)
              rest) from rfl]
    set shift' := if m.tick - shift - last > MAX_DELAY then
        shift + (m.tick - shift - last - MAX_DELAY) else shift with hshift'
    set tick' := if shift' ≠ 0 then m.tick - shift' else m.tick with htick'
    have hs' : shift' ≤ m.tick ∧ shift' + tick' = m.tick ∧ last ≤ tick' ∧
        tick' - last ≤ MAX_DELAY := by
      rw [hshift'] at htick' ⊢
      split at htick' <;> split_ifs at htick' ⊢ <;> omega
    have hih := ih shift' tick' hchain2 (by
      intro m0 hm0
      have := hhead m0 hm0
      omega)
    refine ⟨?_, ?_⟩
    · intro m0 hm0
      simp only [List.head?_cons, Option.mem_def, Option.some.injEq] at hm0
      subst hm0
      exact ⟨hs'.2.2.1, hs'.2.2.2⟩
    · rw [List.map_cons]
      rw [List.chain'_cons']
      refine ⟨?_, hih.2⟩
      intro t ht
      rw [List.head?_map] at ht
      cases hh : (normMoves shift' tick' rest).head? with
      | none => rw [hh] at ht; simp at ht
      | some m1 =>
        rw [hh] at ht
        have htm : m1.tick = t := by simpa using ht
        have := hih.1 m1 hh
        constructor <;> simp <;> omega

/-! ## Claim theorems -/

/-- **C1.** For every recorded move sequence with non-decreasing ticks,
after `ReplayEngine::save` normalizes the log (before serializing), the
first move's tick is at most `MAX_DELAY` (= 180), every consecutive gap is
at most 180, ticks remain non-decreasing, and the number and relative order
of actions is unchanged. -/
theorem save_gap_normalization (e : ReplayEngine)
    (hmono : List.Chain' (· ≤ ·) (e.replay.moves.map Move.tick)) :
    (e.save.replay.moves.map Move.act = e.replay.moves.map Move.act) ∧
    (e.save.replay.moves.length = e.replay.moves.length) ∧
    (∀ m0 ∈ e.save.replay.moves.head?, m0.tick ≤ MAX_DELAY) ∧
    List.Chain' (fun a b => a ≤ b ∧ b - a ≤ MAX_DELAY)
      (e.save.replay.moves.map Move.tick) := by
  unfold ReplayEngine.save
  split
  · refine ⟨rfl, rfl, ?_, ?_⟩
    · intro m0 hm0
      rename_i hempty
      rw [List.isEmpty_iff] at hempty
      rw [hempty] at hm0
      simp at hm0
    · rename_i hempty
      rw [List.isEmpty_iff] at hempty
      rw [hempty]
      simp
  · have h := normMoves_norm e.replay.moves 0 0 hmono (by intro m0 _; omega)
    refine ⟨normMoves_map_act 0 0 _, normMoves_length 0 0 _, ?_, h.2⟩
    intro m0 hm0
    have := h.1 m0 hm0
    omega

/-- **C1 witness.** The documented example: moves at ticks `[0, 500, 1000]`
are saved with ticks `[0, 180, 360]`, which satisfy all the bounds. -/
theorem save_gap_normalization_witness :
    (List.Chain' (· ≤ ·)
      ((ReplayEngine.mk ⟨1, [⟨0, .Up⟩, ⟨500, .Down⟩, ⟨1000, .Throw⟩]⟩
          .Recording 0 0).replay.moves.map Move.tick)) ∧
    ((ReplayEngine.mk ⟨1, [⟨0, .Up⟩, ⟨500, .Down⟩, ⟨1000, .Throw⟩]⟩
        .Recording 0 0).save.replay.moves.map Move.tick = [0, 180, 360]) ∧
    ((ReplayEngine.mk ⟨1, [⟨0, .Up⟩, ⟨500, .Down⟩, ⟨1000, .Throw⟩]⟩
        .Recording 0 0).save.replay.moves.map Move.act = [.Up, .Down, .Throw]) ∧
    List.Chain' (fun a b => a ≤ b ∧ b - a ≤ MAX_DELAY)
      ((ReplayEngine.mk ⟨1, [⟨0, .Up⟩, ⟨500, .Down⟩, ⟨1000, .Throw⟩]⟩
          .Recording 0 0).save.replay.moves.map Move.tick) := by
  have hmono : List.Chain' (· ≤ ·)
      ((ReplayEngine.mk ⟨1, [⟨0, .Up⟩, ⟨500, .Down⟩, ⟨1000, .Throw⟩]⟩
          .Recording 0 0).replay.moves.map Move.tick) := by
    simp [MAX_DELAY]
  have h := save_gap_normalization
    (ReplayEngine.mk ⟨1, [⟨0, .Up⟩, ⟨500, .Down⟩, ⟨1000, .Throw⟩]⟩ .Recording 0 0) hmono
  exact ⟨hmono, by simp [ReplayEngine.save, normMoves, MAX_DELAY], by simp [ReplayEngine.save, normMoves, MAX_DELAY], h.2.2.2⟩

/-- **C5.** While the engine is Replaying and the cursor has actions
remaining, `next_replay_action(tick)` returns the action at the cursor and
advances the cursor by exactly one iff `tick ≥ recorded tick - shift`;
otherwise it returns `none` and leaves the engine unchanged.  (The
hypothesis `shift ≤ recorded tick` holds for every loaded log — `load` sets
`shift ≤ moves[0].tick` and ticks are non-decreasing — and makes the
truncated subtraction agree with u64 arithmetic.) -/
theorem next_replay_action_spec (e : ReplayEngine) (tick : Nat)
    (hst : e.state = RState.Replaying) (hidx : e.idx < e.replay.moves.length)
    (hsh : e.shift ≤ (e.replay.moves.get ⟨e.idx, hidx⟩).tick) :
    ((e.replay.moves.get ⟨e.idx, hidx⟩).tick - e.shift ≤ tick →
      e.next_replay_action tick =
        (some (e.replay.moves.get ⟨e.idx, hidx⟩).act, { e with idx := e.idx + 1 })) ∧
    (tick < (e.replay.moves.get ⟨e.idx, hidx⟩).tick - e.shift →
      e.next_replay_action tick = (none, e)) := by
  have hp : e.is_playing = true := by
    unfold ReplayEngine.is_playing
    simp [hst, hidx]
  unfold ReplayEngine.next_replay_action
  rw [dif_pos ⟨hp, hidx⟩]
  constructor
  · intro h
    rw [if_neg (by omega)]
  · intro h
    rw [if_pos h]

/-- **C5 witness.** A concrete Replaying engine: at tick 5 the due action is
returned and the cursor advances from 0 to 1. -/
theorem next_replay_action_spec_witness :
    (ReplayEngine.mk ⟨1, [⟨5, .Up⟩]⟩ .Replaying 0 0).next_replay_action 5 =
      (some .Up, ReplayEngine.mk ⟨1, [⟨5, .Up⟩]⟩ .Replaying 1 0) := by
  have h := (next_replay_action_spec
    (ReplayEngine.mk ⟨1, [⟨5, .Up⟩]⟩ .Replaying 0 0) 5 rfl (by decide) (by decide)).1 (by decide)
  exact h

/-- **C6.** If `ReplayEngine::load` reads a stored replay record whose
format version differs from the supported version 1, the engine is left
completely unchanged (move log, cursor, shift and state); the load is not
fatal, only a warning is printed. -/
theorem load_version_mismatch (e : ReplayEngine) (r : Replay)
    (hv : r.version ≠ REPLAY_VERSION) : e.load r = e := by
  unfold ReplayEngine.load
  simp [hv]

/-- **C6 witness.** Loading a version-2 record into a fresh engine is a
no-op. -/
theorem load_version_mismatch_witness :
    (Replay.mk 2 [⟨3, .Throw⟩]).version ≠ REPLAY_VERSION ∧
      ReplayEngine.new.load (Replay.mk 2 [⟨3, .Throw⟩]) = ReplayEngine.new :=
  ⟨by decide, load_version_mismatch _ _ (by decide)⟩

/-- **C10 counterexample.** The cursor CAN exceed the length of the move
log: `rec_start` clears the log but does not reset `idx`, so after playing
one action of a one-move replay and then starting a recording, the cursor
is 1 while the log is empty. -/
theorem replay_cursor_counterexample :
    Reachable ((((ReplayEngine.new.load ⟨1, [⟨0, .Up⟩]⟩).replay_start).next_replay_action
        0).2.rec_start) ∧
    ¬((((ReplayEngine.new.load ⟨1, [⟨0, .Up⟩]⟩).replay_start).next_replay_action
        0).2.rec_start.idx ≤
      (((ReplayEngine.new.load ⟨1, [⟨0, .Up⟩]⟩).replay_start).next_replay_action
        0).2.rec_start.replay.moves.length) := by
  constructor
  · exact Reachable.rec_start (Reachable.next 0
      (Reachable.replay_start (Reachable.load _ Reachable.new) rfl))
  · decide

/-- **C10 (amended).** For every engine reachable through the public
operations, the cursor never exceeds the log length *while the state is
Replaying* (after `rec_start` a stale cursor can exceed the cleared log);
the stated consequences hold unconditionally: `replay_percent` is always in
`[0, 100]` and `next_replay_action` only ever reads an index that is in
bounds. -/
theorem replay_cursor_invariant (e : ReplayEngine) (he : Reachable e) :
    (e.state = RState.Replaying → e.idx ≤ e.replay.moves.length) ∧
    (0 ≤ e.replay_percent ∧ e.replay_percent ≤ 100) ∧
    (∀ t a e', e.next_replay_action t = (some a, e') →
      e.idx < e.replay.moves.length) := by
  have hinv : ∀ e', Reachable e' → e'.state = RState.Replaying →
      e'.idx ≤ e'.replay.moves.length := by
    intro e' he'
    induction he' with
    | new => intro _; exact Nat.le_refl _
    | rec_start h ih =>
      intro hst
      exact absurd hst (by simp [ReplayEngine.rec_start])
    | add_action t a h hrec ih =>
      intro hst
      simp only [ReplayEngine.add_action] at hst
      rw [hrec] at hst
      exact absurd hst (by simp)
    | load r h ih =>
      intro hst
      by_cases hv : r.version = REPLAY_VERSION
      · cases hms : r.moves with
        | nil => simp [ReplayEngine.load, hv, hms]
        | cons m rest => simp [ReplayEngine.load, hv, hms]
      · simp only [ReplayEngine.load, if_neg hv] at hst ⊢
        exact ih hst
    | save h ih =>
      rename_i e1
      intro hst
      by_cases hemp : e1.replay.moves.isEmpty = true
      · simp only [ReplayEngine.save, if_pos hemp] at hst ⊢
        exact ih hst
      · simp only [ReplayEngine.save, if_neg hemp] at hst ⊢
        rw [normMoves_length]
        exact ih hst
    | replay_start h hidle ih =>
      rename_i e1
      intro hst
      by_cases hemp : e1.replay.moves.isEmpty = true
      · simp only [ReplayEngine.replay_start, if_pos hemp] at hst
        rw [hidle] at hst
        exact absurd hst (by simp)
      · simp only [ReplayEngine.replay_start, if_neg hemp]
        exact Nat.zero_le _
    | next t h ih =>
      rename_i e1
      intro hst
      by_cases hcond : e1.is_playing = true ∧ e1.idx < e1.replay.moves.length
      · simp only [ReplayEngine.next_replay_action, dif_pos hcond] at hst ⊢
        by_cases ht : t < (e1.replay.moves.get ⟨e1.idx, hcond.2⟩).tick - e1.shift
        · simp only [if_pos ht] at hst ⊢
          exact ih hst
        · simp only [if_neg ht] at hst ⊢
          have := hcond.2
          omega
      · simp only [ReplayEngine.next_replay_action, dif_neg hcond] at hst ⊢
        exact ih hst
  have hi := hinv e he
  refine ⟨hi, ?_, ?_⟩
  · unfold ReplayEngine.replay_percent
    dsimp only
    split
    · exact ⟨le_refl 0, by norm_num⟩
    · rename_i hcond
      push_neg at hcond
      have hlen : (0 : Int) < (e.replay.moves.length : Int) := by
        have := hcond.1
        omega
      have hidx : e.idx ≤ e.replay.moves.length := hi hcond.2
      constructor
      · apply Int.ediv_nonneg _ (le_of_lt hlen)
        positivity
      · calc (e.idx : Int) * 100 / (e.replay.moves.length : Int)
            ≤ (e.replay.moves.length : Int) * 100 / (e.replay.moves.length : Int) := by
              apply Int.ediv_le_ediv hlen
              have : (e.idx : Int) ≤ (e.replay.moves.length : Int) := by
                exact_mod_cast hidx
              nlinarith
          _ = 100 := Int.mul_ediv_cancel_left _ (by omega)
  · intro t a e' hne
    unfold ReplayEngine.next_replay_action at hne
    split at hne
    · rename_i hcond
      exact hcond.2
    · simp at hne

/-- **C10 witness.** The amended invariant instantiated at the freshly
created engine. -/
theorem replay_cursor_invariant_witness :
    (ReplayEngine.new.state = RState.Replaying →
      ReplayEngine.new.idx ≤ ReplayEngine.new.replay.moves.length) ∧
    (0 ≤ ReplayEngine.new.replay_percent ∧ ReplayEngine.new.replay_percent ≤ 100) ∧
    (∀ t a e', ReplayEngine.new.next_replay_action t = (some a, e') →
      ReplayEngine.new.idx < ReplayEngine.new.replay.moves.length) :=
  replay_cursor_invariant ReplayEngine.new Reachable.new

theorem getD_replicate_self (d : α) : ∀ (n i : Nat), (List.replicate n d).getD i d = d
  | 0, _ => by simp [List.getD]
  | n + 1, 0 => by simp [List.replicate]
  | n + 1, i + 1 => by
    simp only [List.replicate, List.getD_cons_succ]
    exact getD_replicate_self d n i

theorem getD_append_replicate (d : α) :
    ∀ (l : List α) (n i : Nat), (l ++ List.replicate n d).getD i d = l.getD i d
  | [], n, i => by
    simp only [List.nil_append]
    exact getD_replicate_self d n i
  | a :: l, n, 0 => by simp
  | a :: l, n, i + 1 => by
    simpa using getD_append_replicate d l n i

theorem getD_set_self (a d : α) :
    ∀ (l : List α) (i : Nat), i < l.length → (l.set i a).getD i d = a
  | b :: l, 0, _ => by simp
  | b :: l, i + 1, h => by
    simpa using getD_set_self a d l i (by simpa using h)

/-- **C7 counterexample.** A first win recorded with 1000 throws (previous
`wins = 0`, `hiscore = 0`) stores `hiscore = 999`, not the throw count 1000:
`set_win` clamps the stored value at 999, contradicting the claim that the
first win "sets hiscore to the throw count" whenever it was 0 or larger. -/
theorem set_win_clamp_counterexample :
    (Scores.level_info ⟨[Score.default, Score.default], 1, 1, 2⟩ 1).wins = 0 ∧
    (Scores.level_info ⟨[Score.default, Score.default], 1, 1, 2⟩ 1).hiscore = 0 ∧
    ((Scores.set_win ⟨[Score.default, Score.default], 1, 1, 2⟩ 1 1000 5).map
      fun s => (s.level_info 1).hiscore) = some 999 ∧ (999 : Nat) ≠ 1000 := by
  refine ⟨rfl, rfl, ?_, by decide⟩
  decide

/-- **C7 (amended).** For every level, a win recorded by `set_win` (with the
`unreachable!` guard satisfied) increments `wins`; the first win sets
`wins = 1` and stores the current date; whenever the stored hiscore was 0 or
larger than the throw count the new hiscore is the throw count *clamped to
999* (`min throws 999`); a later win whose throw count is at least the
stored nonzero hiscore leaves the hiscore unchanged. -/
theorem set_win_spec (s : Scores) (lvl throws : Nat) (today : Int)
    (h1 : lvl < s.lvl_cnt) (h2 : lvl ≤ s.levels.length + 1) :
    ∃ s', s.set_win lvl throws today = some s' ∧
      ((s'.level_info lvl).wins = (s.level_info lvl).wins + 1) ∧
      ((s.level_info lvl).wins = 0 →
        (s'.level_info lvl).wins = 1 ∧ (s'.level_info lvl).first_win = today) ∧
      (((s.level_info lvl).hiscore = 0 ∨ throws < (s.level_info lvl).hiscore) →
        (s'.level_info lvl).hiscore = min throws 999) ∧
      ((s.level_info lvl).hiscore ≠ 0 → (s.level_info lvl).hiscore ≤ throws →
        (s'.level_info lvl).hiscore = (s.level_info lvl).hiscore) := by
  unfold Scores.set_win
  rw [if_neg (by omega)]
  dsimp only
  set padded := s.levels ++ List.replicate (lvl + 1 - s.levels.length) Score.default
    with hpadded
  have hplen : lvl < padded.length := by
    rw [hpadded]
    simp only [List.length_append, List.length_replicate]
    omega
  have hold : padded.getD lvl Score.default = s.level_info lvl := by
    rw [hpadded, Scores.level_info]
    exact getD_append_replicate Score.default s.levels _ lvl
  set old := s.level_info lvl with holddef
  rw [hold]
  set curr1 := { old with wins := old.wins + 1, attempts := old.attempts + 1 } with hc1
  set curr2 := if curr1.wins = 1 then { curr1 with first_win := today } else curr1 with hc2
  set curr3 := if curr2.hiscore = 0 ∨ curr2.hiscore > throws then
      { curr2 with hiscore := if throws > 999 then 999 else throws } else curr2 with hc3
  refine ⟨_, rfl, ?_⟩
  have hgot : ∀ s2 : Scores, s2.levels = padded.set lvl curr3 →
      s2.level_info lvl = curr3 := by
    intro s2 hs2
    rw [Scores.level_info, hs2]
    exact getD_set_self curr3 Score.default padded lvl hplen
  have hinfo : (if lvl < s.lvl_cnt - 1 then
      { s with levels := padded.set lvl curr3,
               max_level := if lvl + 1 > s.max_level then lvl + 1 else s.max_level,
               curr_level := lvl + 1 }
      else { s with levels := padded.set lvl curr3 }).level_info lvl = curr3 := by
    split <;> exact hgot _ rfl
  rw [hinfo]
  have hwins2 : curr2.wins = old.wins + 1 := by
    rw [hc2]; split <;> rfl
  have hwins3 : curr3.wins = old.wins + 1 := by
    rw [hc3]; split <;> simp [hwins2]
  have hfw2 : old.wins = 0 → curr2.first_win = today := by
    intro h0
    rw [hc2, if_pos (by rw [hc1]; simp [h0])]
  have hfw3 : old.wins = 0 → curr3.first_win = today := by
    intro h0
    rw [hc3]; split <;> simp [hfw2 h0]
  have hhs2 : curr2.hiscore = old.hiscore := by
    rw [hc2]; split <;> rfl
  refine ⟨hwins3, fun h0 => ⟨by rw [hwins3, h0], hfw3 h0⟩, ?_, ?_⟩
  · intro hcase
    rw [hc3, if_pos (by rw [hhs2]; omega)]
    simp only
    split <;> rename_i hcmp <;> omega
  · intro hne hle
    rw [hc3, if_neg (by rw [hhs2]; omega), hhs2]

/-- **C7 witness.** The amended claim instantiated: first win with 7 throws
on a fresh level stores `wins = 1`, the date, and `hiscore = 7`. -/
theorem set_win_spec_witness :
    ∃ s', Scores.set_win ⟨[Score.default], 1, 1, 3⟩ 1 7 737000 = some s' ∧
      ((s'.level_info 1).wins = (Scores.level_info ⟨[Score.default], 1, 1, 3⟩ 1).wins + 1) ∧
      ((Scores.level_info ⟨[Score.default], 1, 1, 3⟩ 1).wins = 0 →
        (s'.level_info 1).wins = 1 ∧ (s'.level_info 1).first_win = 737000) ∧
      (((Scores.level_info ⟨[Score.default], 1, 1, 3⟩ 1).hiscore = 0 ∨
          7 < (Scores.level_info ⟨[Score.default], 1, 1, 3⟩ 1).hiscore) →
        (s'.level_info 1).hiscore = min 7 999) ∧
      ((Scores.level_info ⟨[Score.default], 1, 1, 3⟩ 1).hiscore ≠ 0 →
        (Scores.level_info ⟨[Score.default], 1, 1, 3⟩ 1).hiscore ≤ 7 →
        (s'.level_info 1).hiscore = (Scores.level_info ⟨[Score.default], 1, 1, 3⟩ 1).hiscore) :=
  set_win_spec ⟨[Score.default], 1, 1, 3⟩ 1 7 737000 (by decide) (by decide)

theorem foldl_maxW_le (ps : List (List BrickKind)) :
    ∀ a : Nat, a ≤ ps.foldl (fun mx x => if mx < x.length then x.length else mx) a := by
  induction ps with
  | nil => intro a; exact Nat.le_refl a
  | cons p ps ih =>
    intro a
    refine le_trans ?_ (ih (if a < p.length then p.length else a))
    split <;> omega

theorem length_le_maxW (ps : List (List BrickKind)) :
    ∀ (a : Nat) (l : List BrickKind), l ∈ ps →
      l.length ≤ ps.foldl (fun mx x => if mx < x.length then x.length else mx) a := by
  induction ps with
  | nil => intro a l h; cases h
  | cons p ps ih =>
    intro a l h
    rcases List.mem_cons.mp h with rfl | h
    · refine le_trans ?_ (foldl_maxW_le ps _)
      dsimp only
      split <;> omega
    · exact ih _ l h

theorem lt_maxW_of_cell (puzzle : List (List BrickKind)) (j i : Nat)
    (h : (puzzle.getD j []).getD i BrickKind.None ≠ BrickKind.None) :
    i < maxW puzzle := by
  have hrow : i < (puzzle.getD j []).length := by
    by_contra hge
    rw [List.getD_eq_default _ _ (by omega)] at h
    exact h rfl
  have hmem : puzzle.getD j [] ∈ puzzle := by
    have hj : j < puzzle.length := by
      by_contra hge
      rw [List.getD_eq_default _ _ (by omega)] at hrow
      simp at hrow
    rw [List.getD_eq_getElem _ _ hj]
    exact List.getElem_mem hj
  exact lt_of_lt_of_le hrow (length_le_maxW puzzle 0 _ hmem)

/-- The column scan aborts (Rust: panics with an index out of bounds) as
soon as it meets a row whose length equals the scanned column index. -/
theorem colScan_false_of_oob (i : Nat) :
    ∀ (rows : List (List BrickKind)) (found : Bool) (j : Nat),
      j < rows.length → (rows.getD j []).length = i → colScan rows i found = false := by
  intro rows
  induction rows with
  | nil => intro found j hj _; simp at hj
  | cons l rest ih =>
    intro found j hj hlen
    cases j with
    | zero =>
      simp only [List.getD_cons_zero] at hlen
      unfold colScan
      rw [if_neg (by omega), dif_neg (by omega)]
    | succ j =>
      simp only [List.getD_cons_succ] at hlen
      have hj' : j < rest.length := by simpa using hj
      unfold colScan
      split
      · exact ih found j hj' hlen
      · split
        · dsimp only
          split
          · rfl
          · exact ih _ j hj' hlen
        · rfl

/-- The column scan aborts (Rust: "contains a hole" panic, or an earlier
abort) whenever some in-range cell of the column is empty while an earlier
row of the column is filled (or the `found` flag is already set). -/
theorem colScan_false_of_hole (i : Nat) :
    ∀ (rows : List (List BrickKind)) (found : Bool),
      (∃ j2, j2 < rows.length ∧ i < (rows.getD j2 []).length ∧
        (rows.getD j2 []).getD i BrickKind.None = BrickKind.None ∧
        (found = true ∨ ∃ j1, j1 < j2 ∧
          (rows.getD j1 []).getD i BrickKind.None ≠ BrickKind.None)) →
      colScan rows i found = false := by
  intro rows
  induction rows with
  | nil =>
    intro found ⟨j2, hj2, _⟩
    simp at hj2
  | cons l rest ih =>
    intro found ⟨j2, hj2, hin2, hcell2, hfound⟩
    unfold colScan
    split
    · -- l.length < i : the row is skipped by the scan
      rename_i hskip
      cases j2 with
      | zero =>
        simp only [List.getD_cons_zero] at hin2
        omega
      | succ j2 =>
        refine ih found ⟨j2, by simpa using hj2, by simpa using hin2, by simpa using hcell2, ?_⟩
        rcases hfound with hf | ⟨j1, hj1, hne1⟩
        · exact Or.inl hf
        · cases j1 with
          | zero =>
            exfalso
            simp only [List.getD_cons_zero] at hne1
            rw [List.getD_eq_default _ _ (by omega)] at hne1
            exact hne1 rfl
          | succ j1 =>
            exact Or.inr ⟨j1, by omega, by simpa using hne1⟩
    · split
      · rename_i hnlt hin
        dsimp only
        split
        · rfl
        · rename_i hnp
          cases j2 with
          | zero =>
            exfalso
            simp only [List.getD_cons_zero] at hcell2
            rw [List.getD_eq_getElem _ _ (by simpa using hin2)] at hcell2
            have hcl : l.get ⟨i, hin⟩ = BrickKind.None := by
              simpa [List.get_eq_getElem] using hcell2
            rcases hfound with hf | ⟨j1, hj1, _⟩
            · exact hnp ⟨hcl, hf⟩
            · omega
          | succ j2 =>
            refine ih _ ⟨j2, by simpa using hj2, by simpa using hin2, by simpa using hcell2, ?_⟩
            rcases hfound with hf | ⟨j1, hj1, hne1⟩
            · subst hf; exact Or.inl rfl
            · cases j1 with
              | zero =>
                simp only [List.getD_cons_zero] at hne1
                rw [List.getD_eq_getElem _ _ hin] at hne1
                exact Or.inl (by simp [List.get_eq_getElem, hne1])
              | succ j1 =>
                exact Or.inr ⟨j1, by omega, by simpa using hne1⟩
      · rfl

/-- **C8.** Level validation rejects — fatally, `false` standing for a
`panic!` with no recovery — every level whose puzzle has a column with an
empty cell below a filled cell (also when the empty cell comes from a row
shorter than the others), every level whose corner pattern has exactly one
line, and every level with a corner line longer than `MAX_SIZE` (= 7)
cells; a level passing all structural checks is accepted unchanged. -/
theorem validate_level_rejects (lvl : Level) (levels : List Level) :
    (HasHole lvl.puzzle → validate_level lvl = false) ∧
    (lvl.corner.length = 1 → validate_level lvl = false) ∧
    ((∃ c ∈ lvl.corner, MAX_SIZE < c) → validate_level lvl = false) ∧
    (validate_level lvl = true → pushLevel levels lvl = some (levels ++ [lvl])) := by
  refine ⟨?_, ?_, ?_, ?_⟩
  · intro ⟨j1, j2, i, hj12, hj2, hne, hnone⟩
    unfold validate_level
    split
    · rfl
    split
    · rfl
    split
    · rfl
    split
    · rfl
    rw [List.all_eq_false]
    by_cases hin : i < (lvl.puzzle.getD j2 []).length
    · refine ⟨i, List.mem_range.mpr (lt_maxW_of_cell _ j1 i hne), ?_⟩
      simp only [Bool.not_eq_true]
      exact colScan_false_of_hole i lvl.puzzle false
        ⟨j2, hj2, hin, hnone, Or.inr ⟨j1, hj12, hne⟩⟩
    · refine ⟨(lvl.puzzle.getD j2 []).length, List.mem_range.mpr ?_, ?_⟩
      · have := lt_maxW_of_cell lvl.puzzle j1 i hne
        omega
      · simp only [Bool.not_eq_true]
        exact colScan_false_of_oob _ lvl.puzzle false j2 hj2 rfl
  · intro h1
    unfold validate_level
    rw [if_pos (Or.inr h1)]
  · intro ⟨c, hc, hbig⟩
    unfold validate_level
    split
    · rfl
    rw [if_pos (by
      rw [List.any_eq_true]
      exact ⟨c, hc, by simpa using hbig⟩)]
  · intro hv
    unfold pushLevel
    rw [if_pos hv]

/-- **C8 witness.** Concrete levels: a short-row hole (`[[K1,K1],[K1]]`), a
one-line corner, an 8-cell corner line — all rejected — and a well-formed
level accepted unchanged. -/
theorem validate_level_rejects_witness :
    validate_level ⟨[], [[.K1, .K1], [.K1]], .Joker⟩ = false ∧
    validate_level ⟨[3], [[.K1, .K1], [.K1, .K1]], .Joker⟩ = false ∧
    validate_level ⟨[8, 2], [[.K1, .K1], [.K1, .K1]], .Joker⟩ = false ∧
    pushLevel [] ⟨[], [[.K1, .K1], [.K1, .K1]], .Joker⟩ =
      some [⟨[], [[.K1, .K1], [.K1, .K1]], .Joker⟩] := by
  refine ⟨?_, ?_, ?_, ?_⟩
  · exact (validate_level_rejects ⟨[], [[.K1, .K1], [.K1]], .Joker⟩ []).1
      ⟨0, 1, 1, by omega, by decide, by decide, by decide⟩
  · exact (validate_level_rejects ⟨[3], [[.K1, .K1], [.K1, .K1]], .Joker⟩ []).2.1 rfl
  · exact (validate_level_rejects ⟨[8, 2], [[.K1, .K1], [.K1, .K1]], .Joker⟩ []).2.2.1
      ⟨8, by decide, by decide⟩
  · exact (validate_level_rejects ⟨[], [[.K1, .K1], [.K1, .K1]], .Joker⟩ []).2.2.2 (by decide)

theorem scanRows_unfinished (f : GameField) :
    ∀ rows : List Nat,
      (∀ y ∈ rows, (f.target y).isSome) →
      (∃ y ∈ rows, ∃ p, f.target y = some p ∧ p.2.2.2 = f.player.kind) →
      scanRows f rows = some GameState.Unfinished := by
  intro rows
  induction rows with
  | nil =>
    intro _ hex
    simp at hex
  | cons y rest ih =>
    intro htot hex
    obtain ⟨p, hp⟩ := Option.isSome_iff_exists.mp (htot y (by simp))
    obtain ⟨d, x1, y1, k⟩ := p
    unfold scanRows
    rw [hp]
    dsimp only
    by_cases hk : k = f.player.kind
    · rw [if_pos hk]
    · rw [if_neg hk]
      apply ih (fun y hy => htot y (List.mem_cons_of_mem _ hy))
      obtain ⟨y', hy', p', hp', hk'⟩ := hex
      rcases List.mem_cons.mp hy' with rfl | hy'
      · rw [hp] at hp'
        cases hp'
        exact absurd hk' hk
      · exact ⟨y', hy', p', hp', hk'⟩

theorem scanRows_looser (f : GameField) :
    ∀ rows : List Nat,
      (∀ y ∈ rows, ∃ p, f.target y = some p ∧ p.2.2.2 ≠ f.player.kind) →
      scanRows f rows = some GameState.Looser := by
  intro rows
  induction rows with
  | nil => intro _; rfl
  | cons y rest ih =>
    intro h
    obtain ⟨p, hp, hne⟩ := h y (by simp)
    obtain ⟨d, x1, y1, k⟩ := p
    unfold scanRows
    rw [hp]
    dsimp only
    rw [if_neg (by exact hne)]
    exact ih fun y hy => h y (List.mem_cons_of_mem _ hy)

/-- **C3.** `calc_state` returns Completed when the brick set is empty and
the current level is the last loaded one (`level + 1 ≥ level_count`);
Winner when the brick set is empty and more levels remain; Unfinished when
bricks remain and the player holds Joker; Unfinished when bricks remain and
some scanned row's `target` kind equals the player's non-Joker kind; and
Looser when bricks remain, the player is not Joker, and no scanned row's
`target` kind matches.  (`target` must not panic on the scanned rows, which
the wall layout of every loaded level guarantees.) -/
theorem calc_state_cases (f : GameField) :
    (f.bricks = [] → f.level_count ≤ f.level + 1 →
      f.calc_state = some GameState.Completed) ∧
    (f.bricks = [] → f.level + 1 < f.level_count →
      f.calc_state = some GameState.Winner) ∧
    (f.bricks ≠ [] → f.player.kind = BrickKind.Joker →
      f.calc_state = some GameState.Unfinished) ∧
    (f.bricks ≠ [] → f.player.kind ≠ BrickKind.Joker →
      (∀ y ∈ List.range' 1 (HEIGHT - 2), (f.target y).isSome) →
      (∃ y ∈ List.range' 1 (HEIGHT - 2), ∃ p, f.target y = some p ∧
        p.2.2.2 = f.player.kind) →
      f.calc_state = some GameState.Unfinished) ∧
    (f.bricks ≠ [] → f.player.kind ≠ BrickKind.Joker →
      (∀ y ∈ List.range' 1 (HEIGHT - 2), ∃ p, f.target y = some p ∧
        p.2.2.2 ≠ f.player.kind) →
      f.calc_state = some GameState.Looser) := by
  refine ⟨?_, ?_, ?_, ?_, ?_⟩
  · intro hb hl
    unfold GameField.calc_state
    rw [if_pos (by simp [hb]), if_pos (by omega)]
  · intro hb hl
    unfold GameField.calc_state
    rw [if_pos (by simp [hb]), if_neg (by omega)]
  · intro hb hk
    unfold GameField.calc_state
    rw [if_neg (by simp [hb]), if_pos hk]
  · intro hb hk htot hex
    unfold GameField.calc_state
    rw [if_neg (by simp [hb]), if_neg hk]
    exact scanRows_unfinished f _ htot hex
  · intro hb hk hall
    unfold GameField.calc_state
    rw [if_neg (by simp [hb]), if_neg hk]
    exact scanRows_looser f _ hall

/-- **C3 witness.** The sample field (empty brick set, single loaded level)
is Completed. -/
theorem calc_state_cases_witness :
    sampleField.calc_state = some GameState.Completed :=
  (calc_state_cases sampleField).1 rfl (by decide)

/-- **C4.** `recalc_arrow` caches the kind computed by `target` at the
player's row in `first_brick`; for every field whose cache is in sync with
`target` (which `recalc_arrow` re-establishes after every move, throw
resolution and level load), `can_throw()` is true iff the player brick is
not moving, the state is Unfinished, and the target kind is a non-`None`
kind that equals the player's kind or the player holds Joker. -/
theorem can_throw_iff (f : GameField) (p : Bool × Nat × Nat × BrickKind)
    (ht : f.target f.player.y = some p) :
    (∃ g, f.recalc_arrow = some g ∧ g.first_brick = p.2.2.2) ∧
    (f.first_brick = p.2.2.2 →
      (f.can_throw = true ↔
        f.player.is_moving = false ∧ f.state = GameState.Unfinished ∧
        p.2.2.2 ≠ BrickKind.None ∧
        (f.player.kind = BrickKind.Joker ∨ f.player.kind = p.2.2.2))) := by
  obtain ⟨d, x1, y1, k⟩ := p
  constructor
  · unfold GameField.recalc_arrow
    rw [ht]
    exact ⟨_, rfl, rfl⟩
  · intro hfb
    simp only [GameField.can_throw, Bool.and_eq_true, Bool.not_eq_true',
      beq_iff_eq, bne_iff_ne, Bool.or_eq_true, hfb]
    tauto

/-- **C4 witness.** On the sample field the target of the player's row is
`(down, 1, 14, None)`: the kind is `None`, so with the cache in sync
`can_throw` is false even though the player holds Joker. -/
theorem can_throw_iff_witness :
    (∃ g, sampleField.recalc_arrow = some g ∧
      g.first_brick = (true, 1, 14, BrickKind.None).2.2.2) ∧
    (sampleField.first_brick = (true, 1, 14, BrickKind.None).2.2.2 →
      (sampleField.can_throw = true ↔
        sampleField.player.is_moving = false ∧
        sampleField.state = GameState.Unfinished ∧
        (true, 1, 14, BrickKind.None).2.2.2 ≠ BrickKind.None ∧
        (sampleField.player.kind = BrickKind.Joker ∨
          sampleField.player.kind = (true, 1, 14, BrickKind.None).2.2.2))) :=
  can_throw_iff sampleField (true, 1, 14, BrickKind.None) (by decide)

theorem filter_ne_pos_of_not_mem_pos (tx ty : Nat) :
    ∀ bricks : List Brick, (∀ b ∈ bricks, ¬(b.x = tx ∧ b.y = ty)) →
      bricks.filter (fun b => !(b.x == tx && b.y == ty)) = bricks := by
  intro bricks h
  apply List.filter_eq_self.mpr
  intro b hb
  have hcon := h b hb
  simp only [Bool.not_eq_eq_eq_not, Bool.not_true, Bool.and_eq_false_iff,
    beq_eq_false_iff_ne, ne_eq]
  tauto

theorem filter_remove_unique_pos (tx ty : Nat) :
    ∀ (bricks : List Brick) (b0 : Brick),
      bricks.Pairwise (fun a b => ¬(a.x = b.x ∧ a.y = b.y)) →
      b0 ∈ bricks → b0.x = tx → b0.y = ty →
      (bricks.filter (fun b => !(b.x == tx && b.y == ty))).length + 1 = bricks.length := by
  intro bricks
  induction bricks with
  | nil => intro b0 _ hb; cases hb
  | cons a rest ih =>
    intro b0 hnd hb hbx hby
    have hpair := List.pairwise_cons.mp hnd
    rcases List.mem_cons.mp hb with rfl | hb
    · rw [List.filter_cons_of_neg (by simp [hbx, hby])]
      rw [filter_ne_pos_of_not_mem_pos tx ty rest (by
        intro b hbm hcon
        exact hpair.1 b hbm ⟨by omega, by omega⟩)]
      simp
    · have hane : ¬(a.x = tx ∧ a.y = ty) := by
        intro hcon
        exact hpair.1 b0 hb ⟨by omega, by omega⟩
      rw [List.filter_cons_of_pos (by
        simp only [Bool.not_eq_eq_eq_not, Bool.not_true, Bool.and_eq_false_iff,
          beq_eq_false_iff_ne, ne_eq]
        tauto)]
      simp only [List.length_cons]
      rw [ih b0 hpair.2 hb hbx hby]

/-- **C2.** When the player's brick annihilates a matching brick at cell
`(tx, ty)` — vertically (`ty = py + 1`) or horizontally (`ty = py`), where
`py` is the player's row — exactly one brick is removed, the survivors are
exactly the original bricks with `fall` invoked once on every brick in
column `tx` with row index strictly smaller than `ty` (one extra cell of
downward motion each), and no other brick is touched.  The hypotheses state
the board invariants: one brick per cell, the target cell occupied by a
brick whose kind matches (or the player holds Joker), and no brick in the
player's own cell. -/
theorem annihilation_spec (bricks : List Brick) (tx ty py : Nat) (b0 : Brick)
    (pk : BrickKind)
    (hnd : bricks.Pairwise fun a b => ¬(a.x = b.x ∧ a.y = b.y))
    (hb : b0 ∈ bricks) (hbx : b0.x = tx) (hby : b0.y = ty)
    (hmatch : b0.kind = pk ∨ pk = BrickKind.Joker)
    (hty : ty = py ∨ ty = py + 1)
    (hfree : ty = py + 1 → ∀ b ∈ bricks, ¬(b.x = tx ∧ b.y = py)) :
    ((annihilateAt bricks tx ty py).length + 1 = bricks.length) ∧
    (annihilateAt bricks tx ty py =
      (bricks.filter fun b => !(b.x == tx && b.y == ty)).map
        fun b => if b.x = tx ∧ b.y < ty then b.fall BRICK_FALL_SPEED else b) ∧
    (∀ (b : Brick) (s : ℚ),
      (b.fall s).limit.y = (if b.is_moving then b.limit.y else b.scr_pos.y) + BRICK_SIZE ∧
      (b.is_moving = false → (b.fall s).vel = ⟨0, s⟩) ∧
      (b.is_moving = true → (b.fall s).vel = b.vel)) := by
  refine ⟨?_, ?_, ?_⟩
  · unfold annihilateAt
    rw [List.length_map]
    exact filter_remove_unique_pos tx ty bricks b0 hnd hb hbx hby
  · unfold annihilateAt
    apply List.map_congr_left
    intro b hbf
    have hbm : b ∈ bricks := (List.mem_filter.mp hbf).1
    rcases hty with rfl | rfl
    · rfl
    · apply if_congr _ rfl rfl
      constructor
      · intro ⟨h1, h2⟩; exact ⟨h1, by omega⟩
      · intro ⟨h1, h2⟩
        refine ⟨h1, ?_⟩
        have := hfree rfl b hbm
        by_contra hge
        exact this ⟨h1, by omega⟩
  · intro b s
    unfold Brick.fall
    by_cases hmv : b.is_moving = true
    · rw [hmv]
      simp
    · rw [Bool.not_eq_true] at hmv
      rw [hmv]
      simp

/-- **C2 witness.** A vertical annihilation at cell (2, 5) with the player
at (2, 4) holding Joker: of the three bricks, the one at (2, 5) is removed,
the one above at (2, 3) falls once, and the one at (4, 2) is untouched. -/
theorem annihilation_spec_witness :
    ((annihilateAt [Brick.new 2 5 .K1, Brick.new 2 3 .K2, Brick.new 4 2 .K3] 2 5 4).length + 1 =
      ([Brick.new 2 5 .K1, Brick.new 2 3 .K2, Brick.new 4 2 .K3] : List Brick).length) ∧
    (annihilateAt [Brick.new 2 5 .K1, Brick.new 2 3 .K2, Brick.new 4 2 .K3] 2 5 4 =
      (([Brick.new 2 5 .K1, Brick.new 2 3 .K2, Brick.new 4 2 .K3] : List Brick).filter
          fun b => !(b.x == 2 && b.y == 5)).map
        fun b => if b.x = 2 ∧ b.y < 5 then b.fall BRICK_FALL_SPEED else b) ∧
    (∀ (b : Brick) (s : ℚ),
      (b.fall s).limit.y = (if b.is_moving then b.limit.y else b.scr_pos.y) + BRICK_SIZE ∧
      (b.is_moving = false → (b.fall s).vel = ⟨0, s⟩) ∧
      (b.is_moving = true → (b.fall s).vel = b.vel)) :=
  annihilation_spec [Brick.new 2 5 .K1, Brick.new 2 3 .K2, Brick.new 4 2 .K3] 2 5 4
    (Brick.new 2 5 .K1) BrickKind.Joker
    (by
      simp only [List.pairwise_cons, List.mem_cons, List.mem_singleton]
      refine ⟨?_, ?_, ?_⟩
      · intro b hbm
        rcases hbm with rfl | rfl | h
        · simp [Brick.new]
        · simp [Brick.new]
        · cases h
      · intro b hbm
        rcases hbm with rfl | h
        · simp [Brick.new]
        · cases h
      · simp)
    (List.mem_cons_self _ _) rfl rfl (Or.inr rfl) (Or.inr rfl)
    (by
      intro _ b hbm
      rcases List.mem_cons.mp hbm with rfl | hbm
      · simp [Brick.new]
      rcases List.mem_cons.mp hbm with rfl | hbm
      · simp [Brick.new]
      rcases List.mem_cons.mp hbm with rfl | hbm
      · simp [Brick.new]
      · cases hbm)

theorem clampTo_eq_limit (pos lim v : ℚ)
    (h : (v > 0 ∧ lim ≤ pos) ∨ (v < 0 ∧ pos ≤ lim) ∨ (v = 0 ∧ pos = lim)) :
    clampTo pos lim v = lim := by
  unfold clampTo
  rcases h with ⟨h1, h2⟩ | ⟨h1, h2⟩ | ⟨h1, h2⟩
  · rcases eq_or_lt_of_le h2 with heq | hlt
    · rw [if_neg (by intro hc; rcases hc with ⟨ha, _⟩ | ⟨ha, _⟩ <;> linarith)]
      exact heq.symm
    · rw [if_pos (Or.inl ⟨hlt, h1⟩)]
  · rcases eq_or_lt_of_le h2 with heq | hlt
    · rw [if_neg (by intro hc; rcases hc with ⟨ha, _⟩ | ⟨ha, _⟩ <;> linarith)]
      exact heq
    · rw [if_pos (Or.inr ⟨hlt, h1⟩)]
  · rw [if_neg (by intro hc; rcases hc with ⟨ha, hb⟩ | ⟨ha, hb⟩ <;> linarith)]
    exact h2

theorem usizeRound_natCast (n : Nat) : usizeRound ((n : ℚ)) = n := by
  unfold usizeRound
  rw [if_pos (by positivity)]
  rw [Int.floor_nat_add]
  rw [show ⌊(1/2 : ℚ)⌋ = 0 by norm_num]
  simp

/-- **C9 counterexample.** A brick whose motion undershoots a non-aligned
limit within the 0.1 tolerance stops (`is_moving() == false`), but its grid
position times the cell size does not equal its continuous position:
`update` derives the grid position by rounding the *unsnapped* continuous
position, it does not snap it to the grid.  Concretely, a brick at
(96, 48) moving down with velocity 47.95 toward limit (96, 95.95) stops
with `y = 2` but continuous y-position 95.95 ≠ 2 × 48. -/
theorem brick_snap_counterexample :
    (((Brick.new 2 1 .K1).start_moving ⟨0, 959/20⟩ ⟨96, 1919/20⟩).update).is_moving = false ∧
    ((((Brick.new 2 1 .K1).start_moving ⟨0, 959/20⟩ ⟨96, 1919/20⟩).update).y = 2) ∧
    ¬(((((Brick.new 2 1 .K1).start_moving ⟨0, 959/20⟩ ⟨96, 1919/20⟩).update).y : ℚ) * BRICK_SIZE =
      (((Brick.new 2 1 .K1).start_moving ⟨0, 959/20⟩ ⟨96, 1919/20⟩).update).scr_pos.y) := by
  have hupd : ((Brick.new 2 1 .K1).start_moving ⟨0, 959/20⟩ ⟨96, 1919/20⟩).update =
      { x := 2, y := 2, scr_pos := ⟨96, 1919/20⟩, kind := .K1, vel := ⟨0, 0⟩,
        ticks := TICKS, limit := ⟨96, 1919/20⟩ } := by
    unfold Brick.update Brick.start_moving Brick.new
    rw [if_neg (by norm_num [Brick.is_moving, qabs])]
    rw [if_neg (by norm_num [TICKS])]
    have hsx : clampTo ((48 : ℚ) * (2 : Nat) + 0) 96 0 = 96 := by
      apply clampTo_eq_limit
      norm_num [BRICK_SIZE]
    have hsy : clampTo ((48 : ℚ) * (1 : Nat) + 959/20) (1919/20) (959/20) = 1919/20 := by
      apply clampTo_eq_limit
      norm_num [BRICK_SIZE]
    simp only [BRICK_SIZE] at hsx hsy ⊢
    rw [hsx, hsy]
    rw [if_pos (by constructor <;> norm_num [qabs])]
    have hrx : usizeRound ((96 : ℚ) / 48) = 2 := by
      rw [show ((96 : ℚ) / 48) = ((2 : Nat) : ℚ) by norm_num]
      exact usizeRound_natCast 2
    have hry : usizeRound ((1919 : ℚ)/20 / 48) = 2 := by
      unfold usizeRound
      rw [if_pos (by norm_num)]
      rw [show ((1919 : ℚ)/20/48 + 1/2) = 2399/960 by norm_num]
      rw [show ⌊(2399/960 : ℚ)⌋ = 2 by norm_num [Int.floor_eq_iff]]
      rfl
    rw [hrx, hry]
  rw [hupd]
  refine ⟨by norm_num [Brick.is_moving, qabs], rfl, by norm_num [BRICK_SIZE]⟩

/-- **C9 (amended).** Whenever a moving brick's position step reaches or
overshoots its stop limit in each coordinate's direction of travel and the
limit is grid-aligned, `update` stops the brick with its continuous
position snapped exactly to the limit, and the derived integer grid
position times the cell size equals the continuous position exactly.  (The
counterexample shows the claim fails without these two conditions, which
hold for all motions the game itself starts: every in-game limit is a whole
multiple of `BRICK_SIZE` and, in exact arithmetic, every in-game velocity
reaches its limit exactly.) -/
theorem brick_update_snap (b : Brick) (i j : Nat)
    (hmv : b.is_moving = true) (htk : b.ticks = 1)
    (hlim : b.limit = ⟨(i : ℚ) * BRICK_SIZE, (j : ℚ) * BRICK_SIZE⟩)
    (hx : (b.vel.x > 0 ∧ b.limit.x ≤ b.scr_pos.x + b.vel.x) ∨
          (b.vel.x < 0 ∧ b.scr_pos.x + b.vel.x ≤ b.limit.x) ∨
          (b.vel.x = 0 ∧ b.scr_pos.x = b.limit.x)) :
    (b.vel.y > 0 ∧ b.limit.y ≤ b.scr_pos.y + b.vel.y) ∨
    (b.vel.y < 0 ∧ b.scr_pos.y + b.vel.y ≤ b.limit.y) ∨
    (b.vel.y = 0 ∧ b.scr_pos.y = b.limit.y) →
    (b.update.is_moving = false ∧ b.update.scr_pos = b.limit ∧
     b.update.x = i ∧ b.update.y = j ∧
     (b.update.x : ℚ) * BRICK_SIZE = b.update.scr_pos.x ∧
     (b.update.y : ℚ) * BRICK_SIZE = b.update.scr_pos.y) := by
  intro hy
  have hsx : clampTo (b.scr_pos.x + b.vel.x) b.limit.x b.vel.x = b.limit.x := by
    apply clampTo_eq_limit
    rcases hx with ⟨h1, h2⟩ | ⟨h1, h2⟩ | ⟨h1, h2⟩
    · exact Or.inl ⟨h1, h2⟩
    · exact Or.inr (Or.inl ⟨h1, h2⟩)
    · exact Or.inr (Or.inr ⟨h1, by rw [h1, add_zero]; exact h2⟩)
  have hsy : clampTo (b.scr_pos.y + b.vel.y) b.limit.y b.vel.y = b.limit.y := by
    apply clampTo_eq_limit
    rcases hy with ⟨h1, h2⟩ | ⟨h1, h2⟩ | ⟨h1, h2⟩
    · exact Or.inl ⟨h1, h2⟩
    · exact Or.inr (Or.inl ⟨h1, h2⟩)
    · exact Or.inr (Or.inr ⟨h1, by rw [h1, add_zero]; exact h2⟩)
  have hupd : b.update =
      { b with ticks := TICKS, scr_pos := ⟨b.limit.x, b.limit.y⟩,
               x := usizeRound (b.limit.x / BRICK_SIZE),
               y := usizeRound (b.limit.y / BRICK_SIZE),
               vel := ⟨0, 0⟩ } := by
    unfold Brick.update
    rw [hmv]
    rw [if_neg (by norm_num)]
    rw [if_neg (by rw [htk]; decide)]
    simp only [hsx, hsy]
    rw [if_pos (by constructor <;> norm_num [qabs])]
  have hdiv : ∀ n : Nat, ((n : ℚ) * BRICK_SIZE / BRICK_SIZE) = ((n : Nat) : ℚ) := by
    intro n
    rw [mul_div_assoc, div_self (by norm_num [BRICK_SIZE]), mul_one]
  have hxval : usizeRound (b.limit.x / BRICK_SIZE) = i := by
    rw [hlim]
    dsimp only
    rw [hdiv i]
    exact usizeRound_natCast i
  have hyval : usizeRound (b.limit.y / BRICK_SIZE) = j := by
    rw [hlim]
    dsimp only
    rw [hdiv j]
    exact usizeRound_natCast j
  rw [hupd]
  refine ⟨by norm_num [Brick.is_moving, qabs], rfl, hxval, hyval, ?_, ?_⟩
  · dsimp only
    rw [hxval, hlim]
  · dsimp only
    rw [hyval, hlim]

/-- **C9 witness.** The amended claim at a concrete brick: starting at
(96, 48) and falling at speed 48 toward the aligned limit (96, 96), the
brick stops snapped to the grid cell (2, 2). -/
theorem brick_update_snap_witness :
    (((Brick.new 2 1 .K1).start_moving ⟨0, 48⟩ ⟨(2 : Nat) * BRICK_SIZE, (2 : Nat) * BRICK_SIZE⟩).update.is_moving = false ∧
     ((Brick.new 2 1 .K1).start_moving ⟨0, 48⟩ ⟨(2 : Nat) * BRICK_SIZE, (2 : Nat) * BRICK_SIZE⟩).update.scr_pos =
       ((Brick.new 2 1 .K1).start_moving ⟨0, 48⟩ ⟨(2 : Nat) * BRICK_SIZE, (2 : Nat) * BRICK_SIZE⟩).limit ∧
     ((Brick.new 2 1 .K1).start_moving ⟨0, 48⟩ ⟨(2 : Nat) * BRICK_SIZE, (2 : Nat) * BRICK_SIZE⟩).update.x = 2 ∧
     ((Brick.new 2 1 .K1).start_moving ⟨0, 48⟩ ⟨(2 : Nat) * BRICK_SIZE, (2 : Nat) * BRICK_SIZE⟩).update.y = 2 ∧
     (((Brick.new 2 1 .K1).start_moving ⟨0, 48⟩ ⟨(2 : Nat) * BRICK_SIZE, (2 : Nat) * BRICK_SIZE⟩).update.x : ℚ) * BRICK_SIZE =
       ((Brick.new 2 1 .K1).start_moving ⟨0, 48⟩ ⟨(2 : Nat) * BRICK_SIZE, (2 : Nat) * BRICK_SIZE⟩).update.scr_pos.x ∧
     (((Brick.new 2 1 .K1).start_moving ⟨0, 48⟩ ⟨(2 : Nat) * BRICK_SIZE, (2 : Nat) * BRICK_SIZE⟩).update.y : ℚ) * BRICK_SIZE =
       ((Brick.new 2 1 .K1).start_moving ⟨0, 48⟩ ⟨(2 : Nat) * BRICK_SIZE, (2 : Nat) * BRICK_SIZE⟩).update.scr_pos.y) :=
  brick_update_snap
    ((Brick.new 2 1 .K1).start_moving ⟨0, 48⟩ ⟨(2 : Nat) * BRICK_SIZE, (2 : Nat) * BRICK_SIZE⟩) 2 2
    (by norm_num [Brick.is_moving, Brick.start_moving, Brick.new, qabs])
    rfl rfl
    (Or.inr (Or.inr ⟨rfl, by norm_num [Brick.start_moving, Brick.new, BRICK_SIZE]⟩))
    (Or.inl (by norm_num [Brick.start_moving, Brick.new, BRICK_SIZE]))

end Unblocked
